import Mathlib

/-!
Shallow embedding of the puzzle-state module of the jigsaw-puzzle repository
(`src/App.tsx`): board generation, solvability parity test, move validation,
solve detection, ranking maintenance, persisted-rankings loading, random image
selection, and the session state machine, together with theorems settling the
specification claims.

Conventions: JavaScript number indices that are always non-negative are
modelled as `Nat`; arrays as `List`; `string | null` as `Option String`;
exceptions and `undefined` results as `Option`; `Date.now()` and `createId()`
as explicit parameters; `Math.random()` draws as explicit parameters.
-/

namespace Jigsaw

/-- Puzzle session status, from the `PuzzleStatus` union type in `App.tsx`. -/
inductive PuzzleStatus where
  | idle
  | playing
  | solved
deriving DecidableEq, Repr

/-- Score entry persisted in the rankings list, from the `ScoreEntry` type in
`App.tsx`. The millisecond timestamp is modelled as a `Nat`. -/
structure ScoreEntry where
  id : String
  imageId : String
  imageLabel : String
  difficultyId : String
  difficultyLabel : String
  size : Nat
  moves : Nat
  finishedAt : Nat
deriving DecidableEq, Repr

/-- Image catalog entry, from the `DemonImage` type in `App.tsx`. -/
structure DemonImage where
  id : String
  label : String
  description : String
  file : String
deriving DecidableEq, Repr

/-- The fixed image catalog `demonImages` of `App.tsx`. -/
def demonImages : List DemonImage :=
  [ { id := "starlit-reaper", label := "Starlit Reaper",
      description := "Neon twin-scythe idol hunter", file := "/images/starlit-reaper.svg" },
    { id := "midnight-sigil", label := "Midnight Sigil",
      description := "Blue fire rune shield", file := "/images/midnight-sigil.svg" },
    { id := "crimson-halo", label := "Crimson Halo",
      description := "Laser halo bow archer", file := "/images/crimson-halo.svg" } ]

/-- Embeds `createSolvedBoard`: `Array.from({length: size*size}, (_, i) => i)`,
the ascending board `[0, 1, ..., size*size - 1]`. -/
def createSolvedBoard (size : Nat) : List Nat :=
  List.range (size * size)

/-- Embeds `countInversions`: the double loop over pairs `i < j`, skipping a
pair when either value is the blank value, counting pairs with
`tiles[i] > tiles[j]`. All accesses are in range, so the `getD` default is
never consulted. -/
def countInversions (tiles : List Nat) (blankValue : Nat) : Nat :=
  ((List.range tiles.length).map (fun i =>
    ((List.range tiles.length).filter (fun j => decide (i < j))).countP (fun j =>
      let current := tiles.getD i 0
      let next := tiles.getD j 0
      if current = blankValue || next = blankValue then false
      else decide (current > next)))).sum

/-- Embeds `isSolvable`. JavaScript `tiles.indexOf` returns `-1` when the
blank value is absent while `List.indexOf` returns `tiles.length`; the two
agree on every board that contains its blank value `tiles.length - 1`, which
holds for every permutation board the program applies this function to. -/
def isSolvable (tiles : List Nat) (size : Nat) : Bool :=
  let blankValue := tiles.length - 1
  let inversions := countInversions tiles blankValue
  let blankIndex := List.indexOf blankValue tiles
  let blankRowFromBottom := size - blankIndex / size
  if size % 2 = 1 then decide (inversions % 2 = 0)
  else if blankRowFromBottom % 2 = 0 then decide (inversions % 2 = 1)
  else decide (inversions % 2 = 0)

/-- Solvability rule exactly as the specification words it (section 4.1):
inversion count over non-empty pairs; `blankRowFromBottom = size − row(blankIndex)`;
odd size solvable iff inversions even; even size solvable iff
(blankRowFromBottom even ⇒ inversions odd) and (blankRowFromBottom odd ⇒
inversions even). Stated from the spec text, to be compared with `isSolvable`. -/
def specSolvable (tiles : List Nat) (size : Nat) : Prop :=
  let blankValue := tiles.length - 1
  let inversions := countInversions tiles blankValue
  let blankIndex := List.indexOf blankValue tiles
  let blankRowFromBottom := size - blankIndex / size
  if size % 2 = 1 then inversions % 2 = 0
  else (blankRowFromBottom % 2 = 0 → inversions % 2 = 1) ∧
    (blankRowFromBottom % 2 = 1 → inversions % 2 = 0)

/-- Acceptance condition of the rejection loop in `shuffleBoard`: the loop
repeats while `!isSolvable(candidate, size) || candidate.every((v, i) => v ===
solved[i]) || candidate[0] === blankValue`, so a candidate is returned exactly
when it is solvable, not equal to the solved board, and does not hold the
blank value at index 0. `candidate.every` is modelled by `zip`, which agrees
with it whenever the candidate is no longer than the solved board — always the
case for the equal-length permutations the loop draws. `candidate[0]` when the
candidate is empty is JavaScript `undefined`, equal to no number; the `getD`
default `blankValue + 1` likewise differs from `blankValue`. -/
def shuffleAccepts (size : Nat) (candidate : List Nat) : Bool :=
  let solved := createSolvedBoard size
  let blankValue := solved.length - 1
  isSolvable candidate size &&
    !((candidate.zip solved).all (fun p => p.1 == p.2)) &&
    !(candidate.getD 0 (blankValue + 1) == blankValue)

/-- Embeds `shuffleBoard`. Each loop iteration draws
`[...solved].sort(() => Math.random() - 0.5)`, an implementation-defined
permutation of the solved board; the random source is modelled as the list
`draws` of permutations the sort yields, and the do-while loop returns the
first draw passing `shuffleAccepts`. -/
def shuffleBoard (size : Nat) (draws : List (List Nat)) : Option (List Nat) :=
  draws.find? (shuffleAccepts size)

/-- Embeds `isAdjacent`: same row and column distance one, or same column and
row distance one, with rows and columns from division and remainder by `size`. -/
def isAdjacent (indexA : Nat) (indexB : Nat) (size : Nat) : Bool :=
  let rowA := indexA / size
  let colA := indexA % size
  let rowB := indexB / size
  let colB := indexB % size
  (rowA == rowB && ((colA : Int) - (colB : Int)).natAbs == 1) ||
    (colA == colB && ((rowA : Int) - (rowB : Int)).natAbs == 1)

/-- Embeds `isSolved`: `tiles.every((value, index) => value === index)`. -/
def isSolved (tiles : List Nat) : Bool :=
  (List.range tiles.length).all (fun i => tiles.getD i 0 == i)

/-- Embeds the destructuring swap
`[nextTiles[a], nextTiles[b]] = [nextTiles[b], nextTiles[a]]` on a copy of the
board: the right-hand pair is read from the original board, then written to
positions `a` and `b`. The program only swaps in-range positions, where
`List.set` agrees with the JavaScript assignment and the `getD` defaults are
never consulted. -/
def swapList (l : List Nat) (a : Nat) (b : Nat) : List Nat :=
  (l.set a (l.getD b 0)).set b (l.getD a 0)

/-- Board-level core of `attemptMove` (the specification's
`attemptMove(board, tileIndex, size)` contract): locate the blank, test
adjacency, swap on success, return the board unchanged otherwise. The blank
value is `size * size - 1` (`tileCount - 1` in the component). -/
def attemptMove (tiles : List Nat) (tileIndex : Nat) (size : Nat) : List Nat :=
  let blankValue := size * size - 1
  let emptyIndex := List.indexOf blankValue tiles
  if isAdjacent tileIndex emptyIndex size then swapList tiles tileIndex emptyIndex
  else tiles

/-- Embeds the ranking update inside `persistRanking`:
`[...previous, entry].sort((a, b) => a.moves - b.moves).slice(0, 8)`.
JavaScript `Array.prototype.sort` is stable and the comparator orders
ascending by `moves`; `List.mergeSort` with `a.moves ≤ b.moves` is the same
stable ascending sort. -/
def recordResult (previous : List ScoreEntry) (entry : ScoreEntry) : List ScoreEntry :=
  ((previous ++ [entry]).mergeSort (fun a b => decide (a.moves ≤ b.moves))).take 8

/-- Result of `JSON.parse` on the stored blob, as far as `loadRankings`
inspects it: an array (which the code returns unvalidated, here an array of
score entries) or any non-array value. A parse failure (thrown exception) is
the `none` of the oracle below. -/
inductive JsonValue where
  | arrayOf (entries : List ScoreEntry)
  | nonArray
deriving DecidableEq, Repr

/-- Embeds `loadRankings`. `windowDefined` models the `typeof window` guard;
`raw` models `localStorage.getItem` (`none` for `null`); the JavaScript
falsiness test `!raw` is true for `null` and for the empty string; `parse`
models the platform `JSON.parse`, `none` standing for a thrown exception,
which the `catch` turns into `[]`; a non-array parse fails `Array.isArray`
and yields `[]`. -/
def loadRankings (windowDefined : Bool) (raw : Option String)
    (parse : String → Option JsonValue) : List ScoreEntry :=
  if !windowDefined then []
  else
    match raw with
    | none => []
    | some s =>
      if s = "" then []
      else
        match parse s with
        | none => []
        | some (JsonValue.arrayOf entries) => entries
        | some JsonValue.nonArray => []

/-- Embeds `randomFrom`. The JavaScript truthiness test on `excludeId` is
true for a present, non-empty string; `k` models the uniform draw
`Math.floor(Math.random() * filtered.length)`. `none` models both the
thrown error on an empty catalog and an out-of-range `undefined` access,
neither of which the program reaches with its non-empty catalog. -/
def randomFrom (items : List DemonImage) (excludeId : Option String) (k : Nat) :
    Option DemonImage :=
  if items.length = 0 then none
  else
    let filtered :=
      match excludeId with
      | some ex => if ex ≠ "" ∧ 1 < items.length
          then items.filter (fun (e : DemonImage) => !(e.id == ex)) else items
      | none => items
    filtered[k]?

/-- Session state held by the `App` component: active grid size, board, move
counter, status, rankings, and the image/difficulty metadata that
`persistRanking` copies into a new score entry. -/
structure Session where
  size : Nat
  tiles : List Nat
  moveCount : Nat
  status : PuzzleStatus
  rankings : List ScoreEntry
  imageId : String
  imageLabel : String
  difficultyId : String
  difficultyLabel : String
deriving DecidableEq, Repr

/-- Score entry built by `persistRanking`: fresh id and timestamp are the
explicit `freshId` and `now` parameters, the rest copies the session's
current image and difficulty, and `moves` is the counter value passed in. -/
def mkScoreEntry (s : Session) (freshId : String) (now : Nat) (moves : Nat) : ScoreEntry :=
  { id := freshId, imageId := s.imageId, imageLabel := s.imageLabel,
    difficultyId := s.difficultyId, difficultyLabel := s.difficultyLabel,
    size := s.size, moves := moves, finishedAt := now }

/-- Embeds the `attemptMove` callback of the component: no-op unless the
status is `playing`; locate the blank; no-op unless the clicked index is
adjacent to it; otherwise swap, increment the move counter, and when the new
board is solved record the updated counter through `persistRanking` and set
the status to `solved`. -/
def sessionAttemptMove (s : Session) (freshId : String) (now : Nat)
    (tileIndex : Nat) : Session :=
  if s.status ≠ PuzzleStatus.playing then s
  else
    let blankValue := s.size * s.size - 1
    let emptyIndex := List.indexOf blankValue s.tiles
    if ¬ (isAdjacent tileIndex emptyIndex s.size = true) then s
    else
      let nextTiles := swapList s.tiles tileIndex emptyIndex
      let solvedNow := isSolved nextTiles
      let updated := s.moveCount + 1
      { s with
        tiles := nextTiles,
        moveCount := updated,
        status := if solvedNow then PuzzleStatus.solved else s.status,
        rankings := if solvedNow
          then recordResult s.rankings (mkScoreEntry s freshId now updated)
          else s.rankings }

/-- Key signals handled by `handleKeyDown`: the four slide directions
(`ArrowUp`/`w`/`W` and so on), the restart keys (Space and Enter), and every
other key (the `default` branch). -/
inductive KeyInput where
  | arrowUp
  | arrowDown
  | arrowLeft
  | arrowRight
  | restart
  | other
deriving DecidableEq, Repr

/-- Embeds `handleKeyDown`: no-op unless the status is `playing`; direction
keys compute a target adjacent to the blank, guarded so the target stays on
the board (otherwise `target` stays `-1` and nothing happens); Space and
Enter call `startPuzzle()`, which installs a fresh shuffled board (modelled by
`newBoard`), resets the counter and sets the status to `playing`; any other
key does nothing. -/
def sessionHandleKey (s : Session) (freshId : String) (now : Nat)
    (newBoard : List Nat) (key : KeyInput) : Session :=
  if s.status ≠ PuzzleStatus.playing then s
  else
    let blankValue := s.size * s.size - 1
    let emptyIndex := List.indexOf blankValue s.tiles
    let row := emptyIndex / s.size
    let col := emptyIndex % s.size
    match key with
    | KeyInput.arrowUp =>
      if row < s.size - 1 then sessionAttemptMove s freshId now (emptyIndex + s.size) else s
    | KeyInput.arrowDown =>
      if row > 0 then sessionAttemptMove s freshId now (emptyIndex - s.size) else s
    | KeyInput.arrowLeft =>
      if col < s.size - 1 then sessionAttemptMove s freshId now (emptyIndex + 1) else s
    | KeyInput.arrowRight =>
      if col > 0 then sessionAttemptMove s freshId now (emptyIndex - 1) else s
    | KeyInput.restart =>
      { s with tiles := newBoard, moveCount := 0, status := PuzzleStatus.playing }
    | KeyInput.other => s

/-- Board states reachable in a session: a board returned by the generator
(`shuffleBoard` applied to permutation draws, as the JavaScript sort always
permutes), and every board obtained from one by `attemptMove` at any index the
session handlers can pass — `handleTileClick` passes indices of rendered
tiles, `0 ≤ i < tiles.length`, and `handleKeyDown` passes bounds-checked
targets, also in range. -/
inductive ReachableBoard (size : Nat) : List Nat → Prop where
  | generated : ∀ (draws : List (List Nat)) (b : List Nat),
      (∀ d ∈ draws, d.Perm (createSolvedBoard size)) →
      shuffleBoard size draws = some b → ReachableBoard size b
  | moved : ∀ (b : List Nat) (i : Nat), ReachableBoard size b → i < b.length →
      ReachableBoard size (attemptMove b i size)

instance (tiles : List Nat) (size : Nat) : Decidable (specSolvable tiles size) := by
  unfold specSolvable
  infer_instance

/-- Zipping a list with itself satisfies the pointwise equality test, so the
solved board always fails the "not yet solved" part of `shuffleAccepts`. -/
theorem zip_self_all_eq (l : List Nat) : ((l.zip l).all fun p => p.1 == p.2) = true := by
  induction l with
  | nil => rfl
  | cons x xs ih => simpa using ih

/-- Swapping two positions leaves the length unchanged. -/
theorem length_swapList (l : List Nat) (a b : Nat) :
    (swapList l a b).length = l.length := by
  simp [swapList]

/-- Elementwise description of `swapList` at in-range positions. -/
theorem getElem_swapList {l : List Nat} {a b k : Nat}
    (ha : a < l.length) (hb : b < l.length) (hk : k < l.length)
    (hk2 : k < (swapList l a b).length) :
    (swapList l a b)[k] = if b = k then l[a] else if a = k then l[b] else l[k] := by
  unfold swapList
  simp only [List.getD_eq_getElem l 0 ha, List.getD_eq_getElem l 0 hb,
    List.getElem_set]

/-- Swapping two in-range positions permutes the list. -/
theorem swapList_perm (l : List Nat) (a b : Nat)
    (ha : a < l.length) (hb : b < l.length) :
    (swapList l a b).Perm l := by
  rw [List.perm_iff_count]
  intro x
  unfold swapList
  rw [List.getD_eq_getElem l 0 ha, List.getD_eq_getElem l 0 hb]
  have hb2 : b < (l.set a (l[b])).length := by simpa using hb
  rw [List.count_set (l[a]) x _ b hb2, List.count_set (l[b]) x l a ha]
  have hset : (l.set a (l[b]))[b] = if a = b then l[b] else l[b] := List.getElem_set hb2
  rw [hset, ite_self]
  simp only [beq_iff_eq]
  have hP : (if l[a] = x then 1 else 0) ≤ List.count x l := by
    split
    · rename_i h
      exact List.count_pos_iff.mpr (h ▸ List.getElem_mem ha)
    · exact Nat.zero_le _
  generalize hq : (if l[b] = x then 1 else 0) = q
  generalize hp : (if l[a] = x then 1 else 0) = p
  rw [hp] at hP
  omega

/-- Adjacent cells are distinct cells. -/
theorem isAdjacent_ne {i j size : Nat} (h : isAdjacent i j size = true) : i ≠ j := by
  intro he
  subst he
  simp [isAdjacent] at h

/-- Subtraction in either order has the same absolute value. -/
theorem natAbs_sub_comm (m n : Int) : (m - n).natAbs = (n - m).natAbs := by
  omega

/-- Adjacency is symmetric in its two index arguments. -/
theorem isAdjacent_symm (a b size : Nat) : isAdjacent a b size = isAdjacent b a size := by
  rw [Bool.eq_iff_iff]
  simp only [isAdjacent, Bool.or_eq_true, Bool.and_eq_true, beq_iff_eq]
  constructor
  · rintro (⟨h1, h2⟩ | ⟨h1, h2⟩)
    · exact Or.inl ⟨h1.symm, by rw [natAbs_sub_comm] at h2; exact h2⟩
    · exact Or.inr ⟨h1.symm, by rw [natAbs_sub_comm] at h2; exact h2⟩
  · rintro (⟨h1, h2⟩ | ⟨h1, h2⟩)
    · exact Or.inl ⟨h1.symm, by rw [natAbs_sub_comm] at h2; exact h2⟩
    · exact Or.inr ⟨h1.symm, by rw [natAbs_sub_comm] at h2; exact h2⟩

/-- Unpacking of the shuffle acceptance condition: an accepted candidate is
solvable, differs from the solved board, and does not hold the blank value at
index 0. -/
theorem shuffleAccepts_unpack {size : Nat} {b : List Nat}
    (hacc : shuffleAccepts size b = true) (hlen : 0 < b.length) :
    isSolvable b size = true ∧ b ≠ createSolvedBoard size ∧
      b.getD 0 0 ≠ size * size - 1 := by
  simp only [shuffleAccepts, Bool.and_eq_true, Bool.not_eq_true'] at hacc
  obtain ⟨⟨hsolv, hneq⟩, hblank⟩ := hacc
  refine ⟨hsolv, ?_, ?_⟩
  · intro hEq
    rw [hEq, zip_self_all_eq] at hneq
    cases hneq
  · rw [List.getD_eq_getElem b 0 hlen]
    rw [List.getD_eq_getElem b _ hlen] at hblank
    simp only [createSolvedBoard, List.length_range] at hblank
    simp only [beq_eq_false_iff_ne] at hblank
    exact hblank

/-- C1: every board returned by the generator `shuffleBoard` for a session
size N in {3, 4, 5} is a permutation of `0..N²-1`, satisfies the parity
solvability rule (`isSolvable` returns `true`), is not the solved ascending
order, and does not place the blank value `N²-1` at index 0. The draws are
the permutations of the solved board that the JavaScript sort produces. -/
theorem shuffleBoard_spec (size : Nat) (draws : List (List Nat)) (b : List Nat)
    (hsize : size = 3 ∨ size = 4 ∨ size = 5)
    (hdraws : ∀ d ∈ draws, d.Perm (createSolvedBoard size))
    (hret : shuffleBoard size draws = some b) :
    b.Perm (List.range (size * size)) ∧ isSolvable b size = true ∧
      b ≠ createSolvedBoard size ∧ b.getD 0 0 ≠ size * size - 1 := by
  have hmem : b ∈ draws := List.mem_of_find?_eq_some hret
  have hacc : shuffleAccepts size b = true := List.find?_some hret
  have hperm : b.Perm (List.range (size * size)) := by
    simpa [createSolvedBoard] using hdraws b hmem
  have hlen : 0 < b.length := by
    rw [hperm.length_eq, List.length_range]
    rcases hsize with h | h | h <;> subst h <;> decide
  obtain ⟨h1, h2, h3⟩ := shuffleAccepts_unpack hacc hlen
  exact ⟨hperm, h1, h2, h3⟩

/-- Witness for C1: a single accepted draw at size 3. -/
theorem shuffleBoard_spec_witness :
    ([1, 2, 0, 3, 4, 5, 6, 7, 8] : List Nat).Perm (List.range (3 * 3)) ∧
      isSolvable [1, 2, 0, 3, 4, 5, 6, 7, 8] 3 = true ∧
      ([1, 2, 0, 3, 4, 5, 6, 7, 8] : List Nat) ≠ createSolvedBoard 3 ∧
      ([1, 2, 0, 3, 4, 5, 6, 7, 8] : List Nat).getD 0 0 ≠ 3 * 3 - 1 :=
  shuffleBoard_spec 3 [[1, 2, 0, 3, 4, 5, 6, 7, 8]] [1, 2, 0, 3, 4, 5, 6, 7, 8]
    (Or.inl rfl) (by decide) (by decide)

/-- C2: on permutation boards, the code's `isSolvable` returns `true` exactly
according to the specification's parity rule `specSolvable`. -/
theorem isSolvable_iff_specSolvable (tiles : List Nat) (size : Nat)
    (hperm : tiles.Perm (List.range (size * size))) :
    (isSolvable tiles size = true ↔ specSolvable tiles size) := by
  unfold isSolvable specSolvable
  by_cases hodd : size % 2 = 1
  · simp [hodd]
  · rcases Nat.mod_two_eq_zero_or_one
      (size - (List.indexOf (tiles.length - 1) tiles) / size) with hbr | hbr
    · simp [hodd, hbr]
    · simp [hodd, hbr]

/-- Witness for C2 on a concrete 3 × 3 permutation board. -/
theorem isSolvable_iff_specSolvable_witness :
    ([2, 1, 0, 3, 4, 5, 6, 7, 8] : List Nat).Perm (List.range (3 * 3)) ∧
      (isSolvable [2, 1, 0, 3, 4, 5, 6, 7, 8] 3 = true ↔
        specSolvable [2, 1, 0, 3, 4, 5, 6, 7, 8] 3) :=
  ⟨by decide, isSolvable_iff_specSolvable [2, 1, 0, 3, 4, 5, 6, 7, 8] 3 (by decide)⟩

/-- C5: loading the persisted rankings never propagates an error — a missing
key, a blob the platform parser rejects (such as "not json"), and a non-array
payload all yield the empty list — while a well-formed stored array is
returned as is. -/
theorem loadRankings_spec :
    (∀ (w : Bool) (parse : String → Option JsonValue),
      loadRankings w none parse = []) ∧
    (∀ (w : Bool) (s : String) (parse : String → Option JsonValue),
      parse s = none → loadRankings w (some s) parse = []) ∧
    (∀ (w : Bool) (s : String) (parse : String → Option JsonValue),
      parse s = some JsonValue.nonArray → loadRankings w (some s) parse = []) ∧
    (∀ (s : String) (parse : String → Option JsonValue)
      (entries : List ScoreEntry), s ≠ "" →
      parse s = some (JsonValue.arrayOf entries) →
      loadRankings true (some s) parse = entries) := by
  refine ⟨?_, ?_, ?_, ?_⟩
  · intro w parse
    cases w <;> rfl
  · intro w s parse hp
    cases w
    · rfl
    · by_cases hs : s = "" <;> simp [loadRankings, hs, hp]
  · intro w s parse hp
    cases w
    · rfl
    · by_cases hs : s = "" <;> simp [loadRankings, hs, hp]
  · intro s parse entries hs hp
    simp [loadRankings, hs, hp]

/-- Witness for C5: the specification's scenario, a stored blob "not json"
that the parser rejects, yields the empty list. -/
theorem loadRankings_spec_witness :
    loadRankings true (some "not json") (fun _ => none) = [] :=
  loadRankings_spec.2.1 true "not json" (fun _ => none) rfl

/-- Session with a solved board, used to witness C7. -/
def demoSolvedSession : Session :=
  { size := 3, tiles := [0, 1, 2, 3, 4, 5, 6, 7, 8], moveCount := 5,
    status := PuzzleStatus.solved, rankings := [],
    imageId := "starlit-reaper", imageLabel := "Starlit Reaper",
    difficultyId := "easy", difficultyLabel := "Easy" }

/-- C7: no transition leaves the solved state except an explicit restart:
while the status is solved, a move submitted by tile index
(`sessionAttemptMove`) or by key (`sessionHandleKey`) leaves the board, the
move counter, the status and the ranking list all unchanged. -/
theorem solved_is_terminal (s : Session) (freshId : String) (now : Nat)
    (tileIndex : Nat) (newBoard : List Nat) (key : KeyInput)
    (hsolved : s.status = PuzzleStatus.solved) :
    sessionAttemptMove s freshId now tileIndex = s ∧
      sessionHandleKey s freshId now newBoard key = s := by
  have hne : s.status ≠ PuzzleStatus.playing := by
    rw [hsolved]
    decide
  constructor
  · unfold sessionAttemptMove
    rw [if_pos hne]
  · unfold sessionHandleKey
    rw [if_pos hne]

/-- Witness for C7 on a concrete solved session. -/
theorem solved_is_terminal_witness :
    sessionAttemptMove demoSolvedSession "fresh" 0 7 = demoSolvedSession ∧
      sessionHandleKey demoSolvedSession "fresh" 0 [1, 0, 2, 3, 4, 5, 6, 7, 8]
        KeyInput.arrowUp = demoSolvedSession :=
  solved_is_terminal demoSolvedSession "fresh" 0 7 [1, 0, 2, 3, 4, 5, 6, 7, 8]
    KeyInput.arrowUp rfl

/-- C3: for permutation boards and grid indices, `attemptMove` changes the
board iff the targeted index is orthogonally adjacent to the current blank
index; on success the result is the input board with the two positions
swapped, and otherwise the board is returned value-equal, unchanged, with no
other effect. -/
theorem attemptMove_spec (tiles : List Nat) (tileIndex : Nat) (size : Nat)
    (hperm : tiles.Perm (List.range (size * size)))
    (hsz : 0 < size) (hidx : tileIndex < size * size) :
    (attemptMove tiles tileIndex size ≠ tiles ↔
      isAdjacent tileIndex (List.indexOf (size * size - 1) tiles) size = true) ∧
    (isAdjacent tileIndex (List.indexOf (size * size - 1) tiles) size = true →
      attemptMove tiles tileIndex size =
        swapList tiles tileIndex (List.indexOf (size * size - 1) tiles)) ∧
    (isAdjacent tileIndex (List.indexOf (size * size - 1) tiles) size = false →
      attemptMove tiles tileIndex size = tiles) := by
  have hlen : tiles.length = size * size := by
    rw [hperm.length_eq, List.length_range]
  have hmem : size * size - 1 ∈ tiles := by
    rw [hperm.mem_iff]
    exact List.mem_range.mpr (Nat.sub_lt (Nat.mul_pos hsz hsz) Nat.one_pos)
  have he : List.indexOf (size * size - 1) tiles < tiles.length :=
    List.indexOf_lt_length.mpr hmem
  have hti : tileIndex < tiles.length := by omega
  have hnodup : tiles.Nodup := hperm.symm.nodup (List.nodup_range _)
  cases hB : isAdjacent tileIndex (List.indexOf (size * size - 1) tiles) size with
  | false =>
    have hmv : attemptMove tiles tileIndex size = tiles := by
      simp only [attemptMove]
      rw [if_neg (by simp [hB])]
    refine ⟨?_, ?_, fun _ => hmv⟩
    · constructor
      · intro hchg
        exact absurd hmv hchg
      · intro hcon
        cases hcon
    · intro hcon
      cases hcon
  | true =>
    have hmv : attemptMove tiles tileIndex size =
        swapList tiles tileIndex (List.indexOf (size * size - 1) tiles) := by
      simp only [attemptMove]
      rw [if_pos hB]
    have hne : tileIndex ≠ List.indexOf (size * size - 1) tiles := isAdjacent_ne hB
    have hb1 : tileIndex <
        (swapList tiles tileIndex (List.indexOf (size * size - 1) tiles)).length := by
      rw [length_swapList]
      exact hti
    have hchanged :
        swapList tiles tileIndex (List.indexOf (size * size - 1) tiles) ≠ tiles := by
      intro hEq
      have h2 := congrArg (fun l => l.getD tileIndex 0) hEq
      simp only at h2
      rw [List.getD_eq_getElem _ 0 hb1, List.getD_eq_getElem _ 0 hti,
        getElem_swapList hti he hti hb1,
        if_neg (fun hcon => hne hcon.symm), if_pos rfl] at h2
      exact hne (hnodup.getElem_inj_iff.mp h2).symm
    refine ⟨?_, fun _ => hmv, ?_⟩
    · constructor
      · intro _
        rfl
      · intro _
        rw [hmv]
        exact hchanged
    · intro hcon
      cases hcon

/-- Witness for C3 on a concrete 3 × 3 board: moving the tile at index 7,
adjacent to the blank at index 8, swaps the two positions. -/
theorem attemptMove_spec_witness :
    attemptMove [1, 2, 0, 3, 4, 5, 6, 7, 8] 7 3 =
      swapList [1, 2, 0, 3, 4, 5, 6, 7, 8] 7
        (List.indexOf (3 * 3 - 1) [1, 2, 0, 3, 4, 5, 6, 7, 8]) :=
  (attemptMove_spec [1, 2, 0, 3, 4, 5, 6, 7, 8] 7 3 (by decide) (by decide)
    (by decide)).2.1 (by decide)

/-- C10: legal moves are reversible — for a permutation board with blank at
index e, applying the move at an adjacent index and then the move at e
restores the original board — relying on the adjacency test being symmetric
in its two index arguments. -/
theorem attemptMove_reversible (tiles : List Nat) (tileIndex : Nat) (size : Nat)
    (hperm : tiles.Perm (List.range (size * size)))
    (hsz : 0 < size) (hidx : tileIndex < size * size)
    (hadj : isAdjacent tileIndex (List.indexOf (size * size - 1) tiles) size = true) :
    attemptMove (attemptMove tiles tileIndex size)
        (List.indexOf (size * size - 1) tiles) size = tiles ∧
      isAdjacent (List.indexOf (size * size - 1) tiles) tileIndex size =
        isAdjacent tileIndex (List.indexOf (size * size - 1) tiles) size := by
  have hlen : tiles.length = size * size := by
    rw [hperm.length_eq, List.length_range]
  have hmem : size * size - 1 ∈ tiles := by
    rw [hperm.mem_iff]
    exact List.mem_range.mpr (Nat.sub_lt (Nat.mul_pos hsz hsz) Nat.one_pos)
  have he : List.indexOf (size * size - 1) tiles < tiles.length :=
    List.indexOf_lt_length.mpr hmem
  have hti : tileIndex < tiles.length := by omega
  have hne : tileIndex ≠ List.indexOf (size * size - 1) tiles := isAdjacent_ne hadj
  have hmv1 : attemptMove tiles tileIndex size =
      swapList tiles tileIndex (List.indexOf (size * size - 1) tiles) := by
    simp only [attemptMove]
    rw [if_pos hadj]
  have hb1 : tileIndex <
      (swapList tiles tileIndex (List.indexOf (size * size - 1) tiles)).length := by
    rw [length_swapList]
    exact hti
  have hbtiv : (swapList tiles tileIndex (List.indexOf (size * size - 1) tiles))[tileIndex] =
      size * size - 1 := by
    rw [getElem_swapList hti he hti hb1, if_neg (fun hcon => hne hcon.symm), if_pos rfl]
    exact List.getElem_indexOf he
  have hnodup2 : (swapList tiles tileIndex (List.indexOf (size * size - 1) tiles)).Nodup :=
    ((swapList_perm tiles tileIndex _ hti he).trans hperm).symm.nodup (List.nodup_range _)
  have hidx2 : List.indexOf (size * size - 1)
      (swapList tiles tileIndex (List.indexOf (size * size - 1) tiles)) = tileIndex := by
    have h3 := List.indexOf_getElem hnodup2 tileIndex hb1
    rw [hbtiv] at h3
    exact h3
  have hmv2 : attemptMove
      (swapList tiles tileIndex (List.indexOf (size * size - 1) tiles))
      (List.indexOf (size * size - 1) tiles) size =
      swapList (swapList tiles tileIndex (List.indexOf (size * size - 1) tiles))
        (List.indexOf (size * size - 1) tiles) tileIndex := by
    simp only [attemptMove]
    rw [hidx2, if_pos (by rw [isAdjacent_symm]; exact hadj)]
  have hfinal : swapList (swapList tiles tileIndex (List.indexOf (size * size - 1) tiles))
      (List.indexOf (size * size - 1) tiles) tileIndex = tiles := by
    apply List.ext_getElem
    · rw [length_swapList, length_swapList]
    · intro k h1 h2
      have hk : k < tiles.length := h2
      have hbe : List.indexOf (size * size - 1) tiles <
          (swapList tiles tileIndex (List.indexOf (size * size - 1) tiles)).length := by
        rw [length_swapList]
        exact he
      have hbk : k <
          (swapList tiles tileIndex (List.indexOf (size * size - 1) tiles)).length := by
        rw [length_swapList]
        exact hk
      rw [getElem_swapList hbe hb1 hbk h1,
        getElem_swapList hti he he hbe,
        getElem_swapList hti he hti hb1,
        getElem_swapList hti he hk hbk]
      by_cases h5 : tileIndex = k
      · subst h5
        simp
      · by_cases h6 : List.indexOf (size * size - 1) tiles = k
        · subst h6
          have h7 : ¬ (List.indexOf (size * size - 1) tiles = tileIndex) :=
            fun hcon => hne hcon.symm
          simp [h5, h7]
        · simp [h5, h6]
  refine ⟨?_, isAdjacent_symm _ _ _⟩
  rw [hmv1, hmv2]
  exact hfinal

/-- Witness for C10 on a concrete 3 × 3 board: the move at index 7 followed
by the move at the old blank index 8 restores the board. -/
theorem attemptMove_reversible_witness :
    attemptMove (attemptMove [1, 2, 0, 3, 4, 5, 6, 7, 8] 7 3)
        (List.indexOf (3 * 3 - 1) [1, 2, 0, 3, 4, 5, 6, 7, 8]) 3 =
      [1, 2, 0, 3, 4, 5, 6, 7, 8] ∧
      isAdjacent (List.indexOf (3 * 3 - 1) [1, 2, 0, 3, 4, 5, 6, 7, 8]) 7 3 =
        isAdjacent 7 (List.indexOf (3 * 3 - 1) [1, 2, 0, 3, 4, 5, 6, 7, 8]) 3 :=
  attemptMove_reversible [1, 2, 0, 3, 4, 5, 6, 7, 8] 7 3 (by decide) (by decide)
    (by decide) (by decide)

/-- C4: the ranking update `recordResult` appends the entry, sorts ascending
by move count (stably, hence with a deterministic order among equal move
counts), and truncates to at most 8 entries: the result is sorted ascending,
has length `min (n + 1) 8`, and together with the dropped entries recomposes
the appended input, every kept entry having a move count no larger than any
dropped one — so recording more than 8 results retains exactly the 8 lowest
move counts. -/
theorem recordResult_spec (previous : List ScoreEntry) (entry : ScoreEntry) :
    (recordResult previous entry).Sorted
        (fun a b : ScoreEntry => a.moves ≤ b.moves) ∧
      (recordResult previous entry).length = min (previous.length + 1) 8 ∧
      ∃ dropped : List ScoreEntry,
        (recordResult previous entry ++ dropped).Perm (previous ++ [entry]) ∧
        ∀ a ∈ recordResult previous entry, ∀ c ∈ dropped, a.moves ≤ c.moves := by
  have htrans : ∀ a b c : ScoreEntry, (decide (a.moves ≤ b.moves)) = true →
      (decide (b.moves ≤ c.moves)) = true → (decide (a.moves ≤ c.moves)) = true := by
    intro a b c h1 h2
    simp only [decide_eq_true_eq] at h1 h2 ⊢
    omega
  have htotal : ∀ a b : ScoreEntry,
      ((decide (a.moves ≤ b.moves)) || (decide (b.moves ≤ a.moves))) = true := by
    intro a b
    simp only [Bool.or_eq_true, decide_eq_true_eq]
    omega
  have hpair := List.sorted_mergeSort htrans htotal (previous ++ [entry])
  have hpairP : ((previous ++ [entry]).mergeSort
      (fun a b : ScoreEntry => decide (a.moves ≤ b.moves))).Pairwise
      (fun a b : ScoreEntry => a.moves ≤ b.moves) := by
    refine hpair.imp ?_
    intro a b h
    simpa using h
  refine ⟨?_, ?_, ?_⟩
  · exact List.Pairwise.sublist (List.take_sublist 8 _) hpairP
  · unfold recordResult
    rw [List.length_take, List.length_mergeSort, List.length_append]
    simp [Nat.min_comm]
  · refine ⟨((previous ++ [entry]).mergeSort
      (fun a b : ScoreEntry => decide (a.moves ≤ b.moves))).drop 8, ?_, ?_⟩
    · unfold recordResult
      rw [List.take_append_drop]
      exact List.mergeSort_perm _ _
    · intro a ha c hc
      have hpair2 : (((previous ++ [entry]).mergeSort
          (fun a b : ScoreEntry => decide (a.moves ≤ b.moves))).take 8 ++
          ((previous ++ [entry]).mergeSort
            (fun a b : ScoreEntry => decide (a.moves ≤ b.moves))).drop 8).Pairwise
          (fun a b : ScoreEntry => a.moves ≤ b.moves) := by
        rw [List.take_append_drop 8]
        exact hpairP
      have hall := (List.pairwise_append.mp hpair2).2.2
      unfold recordResult at ha
      exact hall a ha c hc

/-- C6: every board state reachable in a session — the generator output and
every board obtained from it by a sequence of `attemptMove` calls at the
indices the session handlers pass — is a permutation of `0..N²-1`. -/
theorem reachable_perm (size : Nat) (b : List Nat) (hsz : 0 < size)
    (hreach : ReachableBoard size b) : b.Perm (List.range (size * size)) := by
  induction hreach with
  | generated draws b0 hdraws hret =>
    have hmem : b0 ∈ draws := List.mem_of_find?_eq_some hret
    simpa [createSolvedBoard] using hdraws b0 hmem
  | moved b0 i hr hi ih =>
    by_cases hadj : isAdjacent i (List.indexOf (size * size - 1) b0) size = true
    · have he : List.indexOf (size * size - 1) b0 < b0.length := by
        apply List.indexOf_lt_length.mpr
        rw [ih.mem_iff]
        exact List.mem_range.mpr (Nat.sub_lt (Nat.mul_pos hsz hsz) Nat.one_pos)
      have hmv : attemptMove b0 i size =
          swapList b0 i (List.indexOf (size * size - 1) b0) := by
        simp only [attemptMove]
        rw [if_pos hadj]
      rw [hmv]
      exact (swapList_perm b0 i _ hi he).trans ih
    · have hmv : attemptMove b0 i size = b0 := by
        simp only [attemptMove]
        rw [if_neg hadj]
      rw [hmv]
      exact ih

/-- Witness for C6: a generated board followed by one move is still a
permutation. -/
theorem reachable_perm_witness :
    ([1, 2, 0, 3, 4, 5, 6, 8, 7] : List Nat).Perm (List.range (3 * 3)) :=
  reachable_perm 3 [1, 2, 0, 3, 4, 5, 6, 8, 7] (by decide)
    (ReachableBoard.moved [1, 2, 0, 3, 4, 5, 6, 7, 8] 7
      (ReachableBoard.generated [[1, 2, 0, 3, 4, 5, 6, 7, 8]]
        [1, 2, 0, 3, 4, 5, 6, 7, 8] (by decide) (by decide))
      (by decide))

/-- Session in the playing state whose next move at index 8 solves the
board, used to witness C8. -/
def demoPlayingSession : Session :=
  { size := 3, tiles := [0, 1, 2, 3, 4, 5, 6, 8, 7], moveCount := 4,
    status := PuzzleStatus.playing, rankings := [],
    imageId := "crimson-halo", imageLabel := "Crimson Halo",
    difficultyId := "easy", difficultyLabel := "Easy" }

/-- C8: in the playing state the move counter increments by exactly 1 on each
accepted (adjacent) move, an illegal attempt leaves the whole session
unchanged, and on a move that solves the board the recorded score entry
carries the final counter value — the one including that last move. -/
theorem moveCounter_spec (s : Session) (freshId : String) (now : Nat)
    (tileIndex : Nat) (hplay : s.status = PuzzleStatus.playing) :
    (isAdjacent tileIndex (List.indexOf (s.size * s.size - 1) s.tiles) s.size = true →
      (sessionAttemptMove s freshId now tileIndex).moveCount = s.moveCount + 1) ∧
    (isAdjacent tileIndex (List.indexOf (s.size * s.size - 1) s.tiles) s.size = false →
      sessionAttemptMove s freshId now tileIndex = s) ∧
    (isAdjacent tileIndex (List.indexOf (s.size * s.size - 1) s.tiles) s.size = true →
      isSolved (swapList s.tiles tileIndex
        (List.indexOf (s.size * s.size - 1) s.tiles)) = true →
      (sessionAttemptMove s freshId now tileIndex).rankings =
        recordResult s.rankings (mkScoreEntry s freshId now (s.moveCount + 1)) ∧
      (mkScoreEntry s freshId now (s.moveCount + 1)).moves = s.moveCount + 1) := by
  have hnotne : ¬ (s.status ≠ PuzzleStatus.playing) := by
    simp [hplay]
  refine ⟨?_, ?_, ?_⟩
  · intro hadj
    simp only [sessionAttemptMove]
    rw [if_neg hnotne, if_neg (by simp [hadj])]
  · intro hadj
    simp only [sessionAttemptMove]
    rw [if_neg hnotne, if_pos (by simp [hadj])]
  · intro hadj hsolved
    simp only [sessionAttemptMove]
    rw [if_neg hnotne, if_neg (by simp [hadj])]
    refine ⟨?_, rfl⟩
    simp [hsolved]

/-- Witness for C8: a solving move on a concrete playing session increments
the counter to 5 and records an entry with that count. -/
theorem moveCounter_spec_witness :
    (sessionAttemptMove demoPlayingSession "fresh2" 9 8).moveCount =
        demoPlayingSession.moveCount + 1 ∧
      (sessionAttemptMove demoPlayingSession "fresh2" 9 8).rankings =
        recordResult demoPlayingSession.rankings
          (mkScoreEntry demoPlayingSession "fresh2" 9
            (demoPlayingSession.moveCount + 1)) :=
  ⟨(moveCounter_spec demoPlayingSession "fresh2" 9 8 rfl).1 (by decide),
    ((moveCounter_spec demoPlayingSession "fresh2" 9 8 rfl).2.2 (by decide)
      (by decide)).1⟩

/-- C9: on a randomize request against a catalog with more than one entry,
the selected image is a catalog member distinct from the current one; the
selection indexes the uniform draw `k` into exactly the list of remaining
entries, which has no duplicate entries when the catalog ids are distinct, so
every remaining entry is selected by exactly one draw value — a uniform draw
induces a uniform choice among the remaining entries; with a single-entry
catalog the current image may be re-selected. -/
theorem randomFrom_spec :
    (∀ (items : List DemonImage) (current : DemonImage) (k : Nat),
      current ∈ items → 1 < items.length → current.id ≠ "" →
      k < (items.filter (fun (e : DemonImage) => !(e.id == current.id))).length →
      ∃ img : DemonImage,
        randomFrom items (some current.id) k = some img ∧
          img ∈ items ∧ img.id ≠ current.id) ∧
    (∀ (items : List DemonImage) (current : DemonImage) (k : Nat),
      1 < items.length → current.id ≠ "" →
      randomFrom items (some current.id) k =
        (items.filter (fun (e : DemonImage) => !(e.id == current.id)))[k]?) ∧
    (∀ (items : List DemonImage) (current : DemonImage),
      (items.map DemonImage.id).Nodup →
      ∀ img ∈ items.filter (fun (e : DemonImage) => !(e.id == current.id)),
        (items.filter (fun (e : DemonImage) => !(e.id == current.id))).count img
          = 1) ∧
    (∀ a : DemonImage, randomFrom [a] (some a.id) 0 = some a) := by
  have hsel : ∀ (items : List DemonImage) (current : DemonImage) (k : Nat),
      1 < items.length → current.id ≠ "" →
      randomFrom items (some current.id) k =
        (items.filter (fun (e : DemonImage) => !(e.id == current.id)))[k]? := by
    intro items current k hlen hid
    simp only [randomFrom]
    rw [if_neg (by omega), if_pos ⟨hid, hlen⟩]
  refine ⟨?_, hsel, ?_, ?_⟩
  · intro items current k hmem hlen hid hk
    rw [hsel items current k hlen hid]
    refine ⟨(items.filter (fun (e : DemonImage) => !(e.id == current.id)))[k],
      List.getElem?_eq_getElem hk, ?_, ?_⟩
    · exact (List.mem_filter.mp (List.getElem_mem hk)).1
    · have h2 := (List.mem_filter.mp (List.getElem_mem hk)).2
      simpa using h2
  · intro items current hnodup img hmemf
    have hnd : items.Nodup := List.Nodup.of_map _ hnodup
    exact List.count_eq_one_of_mem (hnd.filter _) hmemf
  · intro a
    simp [randomFrom]

/-- First entry of the image catalog, used to witness C9. -/
def firstDemonImage : DemonImage :=
  { id := "starlit-reaper", label := "Starlit Reaper",
    description := "Neon twin-scythe idol hunter",
    file := "/images/starlit-reaper.svg" }

/-- Witness for C9: randomizing away from the first catalog image yields a
different catalog image. -/
theorem randomFrom_spec_witness :
    randomFrom demonImages (some firstDemonImage.id) 0 ≠ none := by
  obtain ⟨img, heq, hmem, hne⟩ := randomFrom_spec.1 demonImages firstDemonImage 0
    (by decide) (by decide) (by decide) (by decide)
  rw [heq]
  simp

end Jigsaw
